import Mathlib

/-!
Verification development for the streaming audio-decode buffering engine of
the kleitor repository (src/engine/audio.c, src/runtime/stream.c,
src/runtime/common.c).

Modelling conventions:

* `size_t` values become `Nat`; signed return values (`int` byte counts with
  the `EOF = -1` sentinel) become `Int`.
* The byte source (`RBTK_IN_STREAM` consumed through `rbtk_read_bytes`) is
  modelled as the remaining list of its bytes; a read of `len` bytes returns
  `min len remaining` bytes, the contract of the repository's memory and
  file streams (spec section 6: `read(buffer, off, max_len) -> bytes_read`,
  0 meaning end-of-source).
* The compressed buffer of `rbtk_vorbis_audio_source` is modelled as the
  list of its valid bytes (the region `[0, buffer_offset)`) together with
  its allocated capacity `buffer_size`; `buffer_offset` is the length of
  that list.  The C code passes the whole capacity (including uninitialized
  bytes) to the decoder; the model hands the decoder the valid bytes plus
  the declared capacity.
* stb_vorbis (src/libraries/stb_vorbis.h) is not part of the provided
  sources; following spec section 9 it is modelled abstractly as a
  push-style decoder `accept(bytes) -> consumed / produced samples /
  need-more`.  Float samples are modelled as rationals; the C cast
  `(short)(32768 * sample)` truncates toward zero and, when the value does
  not fit in 16 bits, is modelled as two's-complement wraparound (the
  typical target behavior; formally undefined in C).
* Heap bookkeeping needed by the leak claims is an explicit counter of
  live allocations (`malloc` +1, `free` -1).
* Loops whose termination depends on decoder progress take an explicit
  `fuel` argument; exhausting the fuel yields `none`, a model artifact
  distinct from every real outcome of the C code.
-/

/-- `rbtk_clamp_i16` from src/runtime/common.c: clamp `val` into
`[min, max]` (first raise to `min`, then lower to `max`). -/
def rbtk_clamp_i16 (val min max : Int) : Int :=
  let t := if val < min then min else val
  if t > max then max else t

/-- Truncation toward zero of `k * q`: the float multiplication `k * sample`
followed by the value-conversion step of a C float-to-integer cast.  The
scaling and the truncation are fused into one integer computation —
`trunc(k * num/den) = (k * num) tdiv den` — to keep the definition
kernel-computable. -/
def rat_scale_trunc (k : Int) (q : ℚ) : Int :=
  Int.tdiv (k * q.num) (q.den : Int)

/-- Two's-complement wraparound into the 16-bit signed range, modelling the
narrowing conversion to `short` for out-of-range values. -/
def wrap_i16 (n : Int) : Int :=
  (n + 32768) % 65536 - 32768

/-- `PCM_FROM_VORBIS_SAMPLE` from src/engine/audio.c:
`rbtk_clamp_i16((short) (32768 * (_sample)), -32768, 32767)` — note the
narrowing cast to `short` happens BEFORE the clamp. -/
def PCM_FROM_VORBIS_SAMPLE (sample : ℚ) : Int :=
  rbtk_clamp_i16 (wrap_i16 (rat_scale_trunc 32768 sample)) (-32768) 32767

/-- Modelled from the spec (section 4.3 step 1): convert the float sample by
scaling by 32768 and THEN clamping the scaled value to `[-32768, 32767]`,
so that a sample of 1.0 yields 32767. -/
def pcm_clamped_spec (sample : ℚ) : Int :=
  rbtk_clamp_i16 (rat_scale_trunc 32768 sample) (-32768) 32767

/-- Little-endian serialization of one 16-bit PCM value, as written by
`write_vorbis_samples`: low byte `pcm & 0x00FF` first, then high byte
`(pcm & 0xFF00) >> 8`. -/
def pcm_le_bytes (pcm : Int) : List Nat :=
  let u := (pcm % 65536).toNat
  [u % 256, u / 256]

/-- Modelled from the spec (section 9, and src/libraries/stb_vorbis.h which
is not among the provided sources): result of `stb_vorbis_open_pushdata` —
either an opened decoder with the number of header bytes consumed, the
`VORBIS_need_more_data` signal, or any other (fatal) error code. -/
inductive OpenPushResult (δ : Type) where
  | opened (decoder : δ) (consumed : Nat)
  | need_more
  | fatal
  deriving DecidableEq

/-- Modelled from the spec (section 9): result of one
`stb_vorbis_decode_frame_pushdata` call — `used` compressed bytes consumed,
`count` samples produced per channel, the per-channel sample data, and the
decoder's next internal state. -/
structure FrameResult (δ : Type) where
  used : Nat
  count : Nat
  samples : List (List ℚ)
  next : δ
  deriving DecidableEq

/-- Modelled from the spec (section 9): the push-style decoder collaborator
(the stb_vorbis pushdata API), as a pure state machine over an opaque
decoder state `δ`.  Both entry points receive the valid buffered bytes and
the declared buffer capacity. -/
structure PushDecoder (δ : Type) where
  open_pushdata : List Nat → Nat → OpenPushResult δ
  decode_frame : δ → List Nat → Nat → FrameResult δ
  channel_count : δ → Nat

/-- The fields of `rbtk_vorbis_audio_source` that the byte-buffering loops
read and write: the borrowed input stream (as its remaining bytes), the
compressed buffer's valid bytes (`buffer` up to `buffer_offset`), its
capacity `buffer_size`, and the decoder handle. -/
structure VorbisCore (δ : Type) where
  input : List Nat
  buffer : List Nat
  buffer_size : Nat
  decoder : δ
  deriving DecidableEq

/-- `buffer_offset` of the C structure: the number of buffered-but-unconsumed
bytes at the front of the compressed buffer. -/
def VorbisCore.buffer_offset (c : VorbisCore δ) : Nat :=
  c.buffer.length

/-- `rbtk_vorbis_audio_source` from src/engine/audio.h: the streaming decode
context behind a Vorbis audio source. -/
structure VorbisState (δ : Type) where
  core : VorbisCore δ
  header_size : Nat
  expected_offset : Nat
  channels : Nat
  outputs : Option (List (List ℚ))
  outputs_index : Nat
  outputs_size : Nat
  deriving DecidableEq

/-- `MIN_BUFSIZE` from src/engine/audio.c. -/
def MIN_BUFSIZE : Nat := 4096

/-- `MAX_BUFSIZE` from src/engine/audio.c. -/
def MAX_BUFSIZE : Nat := 176400

/-- One interleaved frame of PCM bytes for sample index `s`: for each
channel `c` in order, the little-endian bytes of
`PCM_FROM_VORBIS_SAMPLE(samples[c][s])` (the inner loop of
`write_vorbis_samples`).  Out-of-range indexing, which the C code never
performs on well-formed decoder output, defaults to a zero sample. -/
def frame_pcm (samples : List (List ℚ)) (channels : Nat) (s : Nat) : List Nat :=
  ((List.range channels).map
    (fun c => pcm_le_bytes (PCM_FROM_VORBIS_SAMPLE ((samples.getD c []).getD s 0)))).flatten

/-- The sample loop of `write_vorbis_samples`: starting at sample index `s`
with `out` bytes already in the caller's buffer of size `len`, write whole
frames until the next frame would not fit (`off + channel_size > len`) or
all samples are written (`fuel` is `outputs_size - outputs_index`, the
number of loop iterations left).  Returns the final sample index and the
accumulated output bytes. -/
def write_samples_go (channels : Nat) (samples : List (List ℚ)) (len : Nat) :
    Nat → Nat → List Nat → Nat × List Nat
  | 0, s, out => (s, out)
  | fuel + 1, s, out =>
    if len < out.length + 2 * channels then (s, out)
    else write_samples_go channels samples len fuel (s + 1)
      (out ++ frame_pcm samples channels s)

/-- `write_vorbis_samples` from src/engine/audio.c: serialize pending decoded
samples into the caller's buffer (`out` holds the bytes written so far,
`len` is the buffer size), advancing `outputs_index`; when every pending
sample has been used, clear the pending-samples reference. -/
def write_vorbis_samples (st : VorbisState δ) (out : List Nat) (len : Nat) :
    VorbisState δ × List Nat :=
  match st.outputs with
  | none => (st, out)
  | some samples =>
    let r := write_samples_go st.channels samples len
      (st.outputs_size - st.outputs_index) st.outputs_index out
    let st1 := { st with outputs_index := r.1 }
    let st2 :=
      if st1.outputs_size ≤ st1.outputs_index then
        { st1 with outputs := none, outputs_size := 0, outputs_index := 0 }
      else st1
    (st2, r.2)

/-- Exit status of the decode loop of `read_vorbis_pcm`:
no progress with no more source data (`return EOF` at the `read <= 0`
check), no progress with the buffer already at `MAX_BUFSIZE` (IO error,
`return EOF`), or a decoded frame of `count > 0` samples. -/
inductive LoopEnd (δ : Type) where
  | eofData
  | eofCap
  | frame (samples : List (List ℚ)) (count : Nat)
  deriving DecidableEq

/-- The `while (samples == 0)` loop of `read_vorbis_pcm`: ask the decoder for
one frame; on zero bytes consumed either report end-of-data (when the
initial pull `read0` returned nothing), fail at the buffer cap, or double
the buffer (`double_buffer_size`) and pull up to the newly added capacity
from the source; on progress, shift the unconsumed bytes to the front
(`shift_unconsumed_to_front`) and retry until a frame with samples
appears.  Note that `read0` is the result of the pull performed before the
loop and is never updated inside it, exactly as in the C code. -/
def decode_loop (D : PushDecoder δ) : Nat → Nat → VorbisCore δ →
    Option (LoopEnd δ × VorbisCore δ)
  | 0, _, _ => none
  | fuel + 1, read0, core =>
    let r := D.decode_frame core.decoder core.buffer core.buffer_size
    let core1 := { core with decoder := r.next }
    if r.used = 0 then
      if read0 = 0 then some (.eofData, core1)
      else if MAX_BUFSIZE ≤ core1.buffer_size then some (.eofCap, core1)
      else
        let unused := core1.buffer_size
        let got := min unused core1.input.length
        decode_loop D fuel read0
          { core1 with
            buffer_size := core1.buffer_size * 2,
            buffer := core1.buffer ++ core1.input.take got,
            input := core1.input.drop got }
    else
      let core2 := { core1 with buffer := core1.buffer.drop r.used }
      if r.count = 0 then decode_loop D fuel read0 core2
      else some (.frame r.samples r.count, core2)

/-- The pull-then-decode phase of `read_vorbis_pcm`: pull from the byte
source into the room left in the compressed buffer
(`buffer_size - buffer_offset` bytes requested), record the pull result as
`read0`, then run the decode loop. -/
def vorbis_fill_and_decode (D : PushDecoder δ) (fuel : Nat) (core : VorbisCore δ) :
    Option (LoopEnd δ × VorbisCore δ) :=
  let want := core.buffer_size - core.buffer.length
  let got := min want core.input.length
  decode_loop D fuel got
    { core with
      buffer := core.buffer ++ core.input.take got,
      input := core.input.drop got }

/-- `read_vorbis_pcm` from src/engine/audio.c: serve one `read_pcm` call of
`len` bytes.  First serialize samples pending from the previous call and
return immediately if they fill the buffer; otherwise pull and decode one
frame, serialize from it, and return the byte count — or `-1` (`EOF`) on
end-of-data, on the buffer-cap IO error, and when no bytes were written.
Returns the count, the new context state, and the bytes serialized into the
caller's buffer during the call. -/
def read_vorbis_pcm (D : PushDecoder δ) (fuel : Nat) (st : VorbisState δ)
    (len : Nat) : Option (Int × VorbisState δ × List Nat) :=
  let ws := write_vorbis_samples st [] len
  let st1 := ws.1
  let out1 := ws.2
  if len ≤ out1.length then
    some ((out1.length : Int),
      { st1 with expected_offset := st1.expected_offset + out1.length }, out1)
  else
    match vorbis_fill_and_decode D fuel st1.core with
    | none => none
    | some (.eofData, core3) => some (-1, { st1 with core := core3 }, out1)
    | some (.eofCap, core3) => some (-1, { st1 with core := core3 }, out1)
    | some (.frame samples count, core3) =>
      let st4 := { st1 with
        core := core3
        outputs := some samples
        outputs_index := 0
        outputs_size := count }
      let ws2 := write_vorbis_samples st4 out1 len
      let st5 := ws2.1
      let out2 := ws2.2
      if 0 < out2.length then
        some ((out2.length : Int),
          { st5 with expected_offset := st5.expected_offset + out2.length }, out2)
      else
        some (-1, st5, out2)

/-- Error classification of a failed `open_vorbis_decoder` call:
out-of-band Vorbis error, buffer cap exceeded, or the (intended)
zero-bytes-read stall error.  The C messages are, in order, "Ogg Vorbis
error %d", "Ogg Vorbis exceeded max buffer size", and "could not open Ogg
Vorbis decoder" — all signalled as `RBTK_ERROR_IO`. -/
inductive VorbisOpenErr where
  | vorbis_error
  | cap_exceeded
  | zero_read
  deriving DecidableEq

/-- Outcome of `open_vorbis_decoder`: an opened context together with the
number of live heap allocations the call leaves behind, or an error with
the buffer size at failure time and the live-allocation count. -/
inductive OpenOut (δ : Type) where
  | ok (st : VorbisState δ) (live : Nat)
  | err (code : VorbisOpenErr) (bufsize : Nat) (live : Nat)
  | out_of_fuel
  deriving DecidableEq

/-- The `while (!decoder)` loop of `open_vorbis_decoder`: try to open the
decoder over the buffered bytes; on a non-need-more error or once
`bufsize >= MAX_BUFSIZE`, fail (without freeing the buffer, as in the C
code); otherwise double the buffer (`double_buffer_size`: malloc the new
buffer, copy, free the old — net live-allocation change zero) and pull up
to the added capacity from the source.  The C guard `if (read < 0)` on the
`size_t` result of `rbtk_read_bytes` is kept verbatim: on `Nat` it can
never hold, so its `free(buf)` + IO-error exit is dead code.  On success,
shift the unconsumed bytes to the front and build the context. -/
def open_go (D : PushDecoder δ) : Nat → List Nat → Nat → List Nat →
    Nat → OpenOut δ
  | 0, _, _, _, _ => .out_of_fuel
  | fuel + 1, buf, bufsize, src, live =>
    match D.open_pushdata buf bufsize with
    | .opened dec consumed =>
      .ok
        { core :=
            { input := src, buffer := buf.drop consumed,
              buffer_size := bufsize, decoder := dec },
          header_size := consumed, expected_offset := 0,
          channels := D.channel_count dec,
          outputs := none, outputs_index := 0, outputs_size := 0 } live
    | .fatal => .err .vorbis_error bufsize live
    | .need_more =>
      if MAX_BUFSIZE ≤ bufsize then .err .cap_exceeded bufsize live
      else
        let unused := bufsize
        let got := min unused src.length
        if got < 0 then .err .zero_read (bufsize * 2) (live - 1)
        else
          open_go D fuel (buf ++ src.take got) (bufsize * 2) (src.drop got) live

/-- `open_vorbis_decoder` from src/engine/audio.c: allocate the
`MIN_BUFSIZE`-byte working buffer (one live allocation), make the initial
pull from the byte source, and run the open loop.  The `channels` field is
filled from the decoder's reported info as `rbtk_source_ogg` does right
after opening. -/
def open_vorbis_decoder (D : PushDecoder δ) (fuel : Nat) (src : List Nat) :
    OpenOut δ :=
  let got := min MIN_BUFSIZE src.length
  open_go D fuel (src.take got) MIN_BUFSIZE (src.drop got) 1

/-- A sequence of `read_pcm` calls with the given per-call buffer sizes, as a
caller such as `buffer_pcm_data` performs them: concatenate the bytes of
each successful call, stop at the first `EOF` return (a call returning
`EOF` contributes nothing — its serialized bytes are not reported to the
caller).  `some` = the drain ended with an `EOF` return within the
schedule; `none` = the schedule or the per-call fuel ran out first. -/
def drain_pcm (D : PushDecoder δ) (callFuel : Nat) :
    List Nat → VorbisState δ → Option (List Nat)
  | [], _ => none
  | len :: lens, st =>
    match read_vorbis_pcm D callFuel st len with
    | none => none
    | some (n, st', out) =>
      if n < 0 then some []
      else Option.map (fun rest => out ++ rest) (drain_pcm D callFuel lens st')

/-- All PCM bytes of one decoded frame: samples `0 .. count-1` serialized in
order. -/
def full_frame_pcm (samples : List (List ℚ)) (channels count : Nat) : List Nat :=
  ((List.range count).map (frame_pcm samples channels)).flatten

/-- Modelled from the spec (section 8, "byte-identical PCM output"): the full
decoded PCM byte stream from a core state — every frame the decode loop
yields, serialized completely and concatenated in order, ending at
end-of-data or at the buffer-cap error.  `outer` bounds the number of
frames. -/
def all_decoded_pcm (D : PushDecoder δ) (callFuel channels : Nat) :
    Nat → VorbisCore δ → Option (List Nat)
  | 0, _ => none
  | outer + 1, core =>
    match vorbis_fill_and_decode D callFuel core with
    | none => none
    | some (.eofData, _) => some []
    | some (.eofCap, _) => some []
    | some (.frame samples count, core') =>
      Option.map (fun rest => full_frame_pcm samples channels count ++ rest)
        (all_decoded_pcm D callFuel channels outer core')

/-- The bytes still owed from the pending-samples cursor of a state: samples
`outputs_index .. outputs_size - 1` serialized in order (empty when no
samples are pending). -/
def pending_pcm (st : VorbisState δ) : List Nat :=
  match st.outputs with
  | none => []
  | some samples =>
    ((List.range' st.outputs_index (st.outputs_size - st.outputs_index)).map
      (frame_pcm samples st.channels)).flatten

/-- `BUFFER_CHUNK_DATA_SIZE` from src/runtime/stream.c (and equally
`PCM_BUFFER_CHUNK_SIZE` from src/engine/audio.c). -/
def BUFFER_CHUNK_DATA_SIZE : Nat := 1024

/-- One `malloc` against an injected failure plan: the head of the plan says
whether this allocation succeeds (an empty plan means every remaining
allocation succeeds). -/
def alloc_step : List Bool → Bool × List Bool
  | [] => (true, [])
  | b :: rest => (b, rest)

/-- The chunk-collection loop of `rbtk_buffer_remaining` from
src/runtime/stream.c: `pulls` are the successive results of
`rbtk_read_bytes(in, data, 0, BUFFER_CHUNK_DATA_SIZE)`; the loop runs while
a pull returns more than zero bytes, allocating a chunk node (live +1),
copying the pulled bytes into it, appending it at the tail, and
accumulating the total size.  A failed chunk allocation aborts with the
failure flag set.  Returns (chunks, size, live, remaining plan, failed). -/
def buffer_remaining_go : List Bool → List (List Nat) → List (List Nat) →
    Nat → Nat → List (List Nat) × Nat × Nat × List Bool × Bool
  | plan, [], chunks, size, live => (chunks, size, live, plan, false)
  | plan, p :: pulls, chunks, size, live =>
    if p.length = 0 then (chunks, size, live, plan, false)
    else
      let a := alloc_step plan
      if a.1 = false then (chunks, size, live, a.2, true)
      else buffer_remaining_go a.2 pulls (chunks ++ [p]) (size + p.length) (live + 1)

/-- `rbtk_buffer_remaining` from src/runtime/stream.c: drain the source into
1024-byte chunks, then allocate one contiguous buffer of exactly the
accumulated size and copy the chunks into it, freeing each chunk as it is
copied; on any allocation failure free every chunk collected so far and
return `none`.  The result pairs the outcome (`some (bytes, size)` or
`none`) with the number of live heap allocations left behind. -/
def rbtk_buffer_remaining (plan : List Bool) (pulls : List (List Nat)) :
    Option (List Nat × Nat) × Nat :=
  match buffer_remaining_go plan pulls [] 0 0 with
  | (chunks, size, live, plan1, failed) =>
    if failed then
      (none, live - chunks.length)
    else
      let a := alloc_step plan1
      if a.1 = false then
        (none, live - chunks.length)
      else
        (some (chunks.flatten, size), (live + 1) - chunks.length)

/-! ## Concrete instances used by counterexamples and failing-input runs -/

/-- A decoder that can never open: `stb_vorbis_open_pushdata` always reports
`VORBIS_need_more_data`, as for an input whose header never resolves. -/
def stallDec : PushDecoder Nat where
  open_pushdata := fun _ _ => .need_more
  decode_frame := fun d _ _ => ⟨0, 0, [], d⟩
  channel_count := fun _ => 2

/-- A decoder whose header parse fails outright with a Vorbis error code
other than `VORBIS_need_more_data`. -/
def fatalDec : PushDecoder Nat where
  open_pushdata := fun _ _ => .fatal
  decode_frame := fun d _ _ => ⟨0, 0, [], d⟩
  channel_count := fun _ => 1

/-- A one-channel decoder that opens after 4 header bytes, then decodes one
3-sample frame from the next 4 bytes, then reports end of data (consumes
nothing further).  Its decoder state counts the frames decoded so far. -/
def cexDec : PushDecoder Nat where
  open_pushdata := fun _ _ => .opened 0 4
  decode_frame := fun d _ _ => if d = 0 then ⟨4, 3, [[0, 0, 0]], 1⟩ else ⟨0, 0, [], d⟩
  channel_count := fun _ => 1

/-- The context `open_vorbis_decoder` builds for `cexDec` over an 8-byte
source: 4 compressed bytes left in the buffer, source exhausted. -/
def cexSt : VorbisState Nat :=
  { core := { input := [], buffer := List.replicate 4 0, buffer_size := 4096, decoder := 0 },
    header_size := 4, expected_offset := 0, channels := 1,
    outputs := none, outputs_index := 0, outputs_size := 0 }

/-- The context after one 4-byte `read_pcm` call on `cexSt`: the 3-sample
frame was decoded, 2 of its samples were delivered, 1 sample (2 bytes) is
still pending. -/
def cexSt2 : VorbisState Nat :=
  { core := { input := [], buffer := [], buffer_size := 4096, decoder := 1 },
    header_size := 4, expected_offset := 4, channels := 1,
    outputs := some [[0, 0, 0]], outputs_index := 2, outputs_size := 3 }

/-- A decoder whose header parse keeps reporting `VORBIS_need_more_data`
until the working buffer has been doubled up to 262144 bytes, and opens
then (consuming nothing). -/
def c3Dec : PushDecoder Nat where
  open_pushdata := fun _ size => if size < 262144 then .need_more else .opened 0 0
  decode_frame := fun d _ _ => ⟨0, 0, [], d⟩
  channel_count := fun _ => 2

/-- The context `open_vorbis_decoder` builds for `c3Dec`: a successfully
opened streaming decode context whose compressed buffer was grown to
262144 bytes — past the 176400-byte cap. -/
def c3St : VorbisState Nat :=
  { core := { input := [], buffer := [], buffer_size := 262144, decoder := 0 },
    header_size := 0, expected_offset := 0, channels := 2,
    outputs := none, outputs_index := 0, outputs_size := 0 }

/-- The context after a second 4-byte `read_pcm` call on `cexSt2`: the last
pending sample was serialized (2 bytes entered the caller's buffer) but the
subsequent decode hit end-of-source, so the call returned `EOF` anyway. -/
def cexSt3 : VorbisState Nat :=
  { core := { input := [], buffer := [], buffer_size := 4096, decoder := 1 },
    header_size := 4, expected_offset := 4, channels := 1,
    outputs := none, outputs_index := 0, outputs_size := 0 }

/-! ## Claim theorems -/

/-- C3, counterexample: a reachable streaming decode context whose
`buffer_size` exceeds the 176400-byte cap.  The cap check
`bufsize >= MAX_BUFSIZE` runs before each doubling, so the growth
4096 → … → 131072 → 262144 is allowed (131072 < 176400) and an opened
context with `buffer_size = 262144 > MAX_BUFSIZE` exists, refuting
"buffer_size never exceeds the hard cap of 176400 bytes" and "growth that
would need to pass the cap instead fails". -/
theorem buffer_cap_counterexample :
    open_vorbis_decoder c3Dec 10 [] = .ok c3St 1 ∧
    c3St.core.buffer_size = 262144 ∧ MAX_BUFSIZE < c3St.core.buffer_size :=
  ⟨by decide, by decide, by decide⟩

/-- C1, counterexample: from the same opened context `cexSt` (decoder
`cexDec`, one channel, a single 3-sample frame followed by end-of-source),
draining with two 100-byte `read_pcm` calls yields 6 PCM bytes, while
draining with 4-byte calls yields only 4: the second 4-byte call serializes
the last pending sample (2 bytes) without filling its buffer, then hits
end-of-source and returns `EOF`, discarding those bytes.  Both runs decode
successfully (they end with the normal end-of-source return), yet the
concatenated outputs differ. -/
theorem read_pcm_schedule_counterexample :
    open_vorbis_decoder cexDec 8 (List.replicate 8 0) = .ok cexSt 1 ∧
    drain_pcm cexDec 8 [100, 100] cexSt = some [0, 0, 0, 0, 0, 0] ∧
    drain_pcm cexDec 8 [4, 4, 4] cexSt = some [0, 0, 0, 0] ∧
    drain_pcm cexDec 8 [100, 100] cexSt ≠ drain_pcm cexDec 8 [4, 4, 4] cexSt :=
  ⟨by decide, by decide, by decide, by decide⟩

/-- C4, counterexample: a `read_pcm` call (on the reachable context
`cexSt2`, which holds one pending sample) serializes 2 bytes into the
caller's buffer and then hits end-of-source in the decode loop; the call
returns the `EOF` sentinel `-1` instead of the positive byte count 2, and
`expected_offset` is not advanced. -/
theorem read_pcm_partial_discard_counterexample :
    open_vorbis_decoder cexDec 8 (List.replicate 8 0) = .ok cexSt 1 ∧
    read_vorbis_pcm cexDec 8 cexSt 4 = some (4, cexSt2, [0, 0, 0, 0]) ∧
    read_vorbis_pcm cexDec 8 cexSt2 4 = some (-1, cexSt3, [0, 0]) ∧
    ([0, 0] : List Nat).length = 2 :=
  ⟨by decide, by decide, by decide, by decide⟩

/-- C5, failing input evaluated: a source that yields 100 bytes and then
zero bytes forever, against a decoder that keeps needing more data.  The
intended immediate zero-read IO failure (the C comment "we must signal an
error and return to avoid a possible softlock") never fires, because the
guard `read < 0` compares an unsigned `size_t` against zero; the open loop
instead keeps doubling through 8192 … 131072 → 262144 after the source is
exhausted and only then fails, with the buffer-cap IO error. -/
theorem open_stall_fails_at_cap :
    open_vorbis_decoder stallDec 20 (List.replicate 100 0) =
      .err .cap_exceeded 262144 1 := by decide

/-- C9, failing input evaluated: opening fails (decoder error on one input,
header unresolved within the cap on the other) and in both cases exactly
one allocation — the compressed working buffer — is left live: the error
returns in `open_vorbis_decoder` never free `buf`, so a failed open leaks
it. -/
theorem open_failure_leaks_buffer :
    open_vorbis_decoder fatalDec 20 (List.replicate 100 0) =
      .err .vorbis_error 4096 1 ∧
    open_vorbis_decoder stallDec 20 (List.replicate 100 0) =
      .err .cap_exceeded 262144 1 ∧
    (1 : Nat) ≠ 0 :=
  ⟨by decide, by decide, by decide⟩

/-- C6, failing input evaluated: for the sample value 1.0 the code computes
`(short)(32768 * 1.0)` first — which wraps to -32768 — and only then
applies the (now inert) clamp, so the serialized PCM value is -32768 with
little-endian bytes `[0x00, 0x80]`; the spec's scale-then-clamp conversion
yields 32767. -/
theorem pcm_clamp_after_cast_bug :
    PCM_FROM_VORBIS_SAMPLE 1 = -32768 ∧
    pcm_clamped_spec 1 = 32767 ∧
    pcm_le_bytes (PCM_FROM_VORBIS_SAMPLE 1) = [0, 128] ∧
    PCM_FROM_VORBIS_SAMPLE 1 ≠ pcm_clamped_spec 1 :=
  ⟨by decide, by decide, by decide, by decide⟩

/-- The chunk-collection loop, when no allocation fails, appends every
(non-empty) pull as a chunk, accumulates exactly the total pulled length,
and allocates one chunk per pull. -/
theorem buffer_remaining_go_nil_plan :
    ∀ (pulls : List (List Nat)) (chunks : List (List Nat)) (size live : Nat),
      (∀ p ∈ pulls, p ≠ []) →
      buffer_remaining_go [] pulls chunks size live =
        (chunks ++ pulls, size + pulls.flatten.length, live + pulls.length, [], false)
  | [], chunks, size, live, _ => by simp [buffer_remaining_go]
  | p :: pulls, chunks, size, live, h => by
    have hp : p ≠ [] := h p (by simp)
    have hlen : p.length ≠ 0 := by simpa using hp
    have ih := buffer_remaining_go_nil_plan pulls (chunks ++ [p]) (size + p.length)
      (live + 1) (fun q hq => h q (by simp [hq]))
    simp only [buffer_remaining_go, alloc_step, if_neg hlen]
    simp [ih, List.append_assoc]
    omega

/-- The chunk-collection loop keeps the live-allocation count equal to the
number of chunk nodes it holds. -/
theorem go_live :
    ∀ (plan : List Bool) (pulls chunks : List (List Nat)) (size live : Nat)
      (chunks' : List (List Nat)) (size' live' : Nat) (plan' : List Bool) (failed : Bool),
      buffer_remaining_go plan pulls chunks size live =
        (chunks', size', live', plan', failed) →
      live = chunks.length → live' = chunks'.length
  | plan, [], chunks, size, live, chunks', size', live', plan', failed, heq, hlive => by
    simp only [buffer_remaining_go, Prod.mk.injEq] at heq
    obtain ⟨h1, h2, h3, h4, h5⟩ := heq
    simp [← h1, ← h3, hlive]
  | plan, p :: pulls, chunks, size, live, chunks', size', live', plan', failed, heq, hlive => by
    by_cases hp : p.length = 0
    · simp only [buffer_remaining_go, if_pos hp, Prod.mk.injEq] at heq
      obtain ⟨h1, h2, h3, h4, h5⟩ := heq
      simp [← h1, ← h3, hlive]
    · simp only [buffer_remaining_go, if_neg hp] at heq
      by_cases ha : (alloc_step plan).1 = false
      · rw [if_pos ha] at heq
        simp only [Prod.mk.injEq] at heq
        obtain ⟨h1, h2, h3, h4, h5⟩ := heq
        simp [← h1, ← h3, hlive]
      · rw [if_neg ha] at heq
        exact go_live _ pulls (chunks ++ [p]) _ (live + 1) _ _ _ _ _ heq (by simp [hlive])

/-- C7: for every pull source that yields the non-empty reads `pulls` (each
at most one chunk of 1024 bytes, per the stream contract) and then reports
zero bytes, `rbtk_buffer_remaining` returns one buffer whose reported size
is exactly the total number of bytes yielded and whose contents are the
concatenation of the pulls in order — leaving exactly that one allocation
live. -/
theorem buffer_remaining_exact (pulls : List (List Nat))
    (h1 : ∀ p ∈ pulls, p ≠ [])
    (h2 : ∀ p ∈ pulls, p.length ≤ BUFFER_CHUNK_DATA_SIZE) :
    rbtk_buffer_remaining [] pulls = (some (pulls.flatten, pulls.flatten.length), 1) := by
  unfold rbtk_buffer_remaining
  rw [buffer_remaining_go_nil_plan pulls [] 0 0 h1]
  simp [alloc_step]

/-- C7 witness: a 2-byte pull then a 1-byte pull yield a 3-byte buffer with
the concatenated contents. -/
theorem buffer_remaining_exact_witness :
    rbtk_buffer_remaining [] [[1, 2], [3]] = (some ([1, 2, 3], 3), 1) :=
  buffer_remaining_exact [[1, 2], [3]] (by decide) (by decide)

/-- C8: whatever allocation-failure plan is injected (any chunk-node
allocation or the final contiguous allocation failing), whenever
`rbtk_buffer_remaining` returns failure it leaves zero allocations live:
every chunk node collected so far has been freed and no partial buffer
remains. -/
theorem buffer_remaining_failure_cleanup (plan : List Bool) (pulls : List (List Nat))
    (hfail : (rbtk_buffer_remaining plan pulls).1 = none) :
    (rbtk_buffer_remaining plan pulls).2 = 0 := by
  unfold rbtk_buffer_remaining at hfail ⊢
  rcases hgo : buffer_remaining_go plan pulls [] 0 0 with ⟨chunks, size, live, plan1, failed⟩
  have hl : live = chunks.length := go_live plan pulls [] 0 0 chunks size live plan1 failed hgo rfl
  rw [hgo] at hfail
  cases failed with
  | true => simp [hl]
  | false =>
    by_cases ha : (alloc_step plan1).1 = false
    · simp [ha, hl]
    · simp [ha] at hfail

/-- C8 witness: the second (N = 2) chunk allocation fails; the call returns
failure and zero allocations remain. -/
theorem buffer_remaining_failure_cleanup_witness :
    (rbtk_buffer_remaining [true, false] [[1, 2, 3], [4, 5]]).2 = 0 :=
  buffer_remaining_failure_cleanup [true, false] [[1, 2, 3], [4, 5]] (by decide)

/-- Each serialized PCM value occupies exactly two bytes. -/
theorem pcm_le_bytes_length (pcm : Int) : (pcm_le_bytes pcm).length = 2 := rfl

/-- One interleaved frame occupies exactly `channel_size = 2 * channels`
bytes. -/
theorem frame_pcm_length (samples : List (List ℚ)) (c s : Nat) :
    (frame_pcm samples c s).length = 2 * c := by
  simp only [frame_pcm, List.length_flatten, List.map_map]
  change (List.map (fun _ => (2 : Nat)) (List.range c)).sum = 2 * c
  simp [List.map_const', List.sum_replicate, Nat.mul_comm]

/-- The sample loop only ever appends whole frames, so it preserves
divisibility of the output length by the frame size. -/
theorem write_go_dvd (c : Nat) (smp : List (List ℚ)) (len : Nat) :
    ∀ (f s : Nat) (out : List Nat), (2 * c) ∣ out.length →
      (2 * c) ∣ (write_samples_go c smp len f s out).2.length
  | 0, _, _, h => h
  | f + 1, s, out, h => by
    unfold write_samples_go
    split
    · exact h
    · exact write_go_dvd c smp len f (s + 1) (out ++ frame_pcm smp c s)
        (by rw [List.length_append, frame_pcm_length]; exact Nat.dvd_add h (dvd_refl _))

/-- Serializing pending samples never touches the byte source, the
compressed buffer, or the decoder handle. -/
theorem write_vorbis_samples_core (st : VorbisState δ) (out : List Nat) (len : Nat) :
    (write_vorbis_samples st out len).1.core = st.core := by
  unfold write_vorbis_samples
  rcases h : st.outputs with _ | smp <;> simp [h]
  split <;> simp

/-- Serializing pending samples never changes the channel count. -/
theorem write_vorbis_samples_channels (st : VorbisState δ) (out : List Nat) (len : Nat) :
    (write_vorbis_samples st out len).1.channels = st.channels := by
  unfold write_vorbis_samples
  rcases h : st.outputs with _ | smp <;> simp [h]
  split <;> simp

/-- `write_vorbis_samples` preserves frame-size divisibility of the output
length. -/
theorem write_vorbis_samples_dvd (st : VorbisState δ) (out : List Nat) (len : Nat)
    (c : Nat) (hc : st.channels = c) (h : (2 * c) ∣ out.length) :
    (2 * c) ∣ (write_vorbis_samples st out len).2.length := by
  subst hc
  unfold write_vorbis_samples
  rcases ho : st.outputs with _ | smp
  · simpa using h
  · simpa using write_go_dvd st.channels smp len _ _ out h

/-- Every completed `read_vorbis_pcm` call either returns the `EOF` sentinel
`-1` or returns exactly the number of bytes it serialized into the caller's
buffer, a whole multiple of the frame size. -/
theorem read_pcm_cases (D : PushDecoder δ) (fuel : Nat) (st : VorbisState δ) (len : Nat)
    (n : Int) (st' : VorbisState δ) (out : List Nat)
    (h : read_vorbis_pcm D fuel st len = some (n, st', out)) :
    n = -1 ∨ (n = (out.length : Int) ∧ (2 * st.channels) ∣ out.length) := by
  have h1 : (2 * st.channels) ∣ (write_vorbis_samples st [] len).2.length :=
    write_vorbis_samples_dvd st [] len st.channels rfl (by simp)
  rw [read_vorbis_pcm] at h
  simp only at h
  split at h
  · simp only [Option.some.injEq, Prod.mk.injEq] at h
    obtain ⟨hn, _, hout⟩ := h
    exact Or.inr ⟨hout ▸ hn.symm, hout ▸ h1⟩
  · split at h
    · simp at h
    · simp only [Option.some.injEq, Prod.mk.injEq] at h
      exact Or.inl h.1.symm
    · simp only [Option.some.injEq, Prod.mk.injEq] at h
      exact Or.inl h.1.symm
    · split at h
      · simp only [Option.some.injEq, Prod.mk.injEq] at h
        obtain ⟨hn, _, hout⟩ := h
        refine Or.inr ⟨hout ▸ hn.symm, hout ▸ ?_⟩
        exact write_vorbis_samples_dvd _ _ _ st.channels
          (write_vorbis_samples_channels st [] len) h1
      · simp only [Option.some.injEq, Prod.mk.injEq] at h
        exact Or.inl h.1.symm

/-- C10: whenever a `read_pcm` call on a Vorbis source returns a
non-negative byte count `n`, `n` is a whole multiple of the interleaved
frame size `2 * channels`: the serializer stops before any frame that would
not fit, so it never writes a torn frame. -/
theorem read_pcm_frame_aligned (D : PushDecoder δ) (fuel : Nat) (st : VorbisState δ)
    (len : Nat) (n : Int) (st' : VorbisState δ) (out : List Nat)
    (h : read_vorbis_pcm D fuel st len = some (n, st', out)) (hn : 0 ≤ n) :
    ((2 * st.channels : Nat) : Int) ∣ n := by
  rcases read_pcm_cases D fuel st len n st' out h with h1 | ⟨h1, h2⟩
  · omega
  · rw [h1]
    exact_mod_cast Int.natCast_dvd_natCast.mpr h2

/-- C10 witness: the 4-byte call on the opened one-channel context `cexSt`
returns 4, a multiple of the 2-byte frame size. -/
theorem read_pcm_frame_aligned_witness :
    ((2 * cexSt.channels : Nat) : Int) ∣ (4 : Int) :=
  read_pcm_frame_aligned cexDec 8 cexSt 4 4 cexSt2 [0, 0, 0, 0] (by decide) (by decide)

/-- C4, amended behavior: whenever a `read_pcm` call returns a non-negative
count `n`, `n` is exactly the number of bytes serialized into the caller's
buffer during that call; on the end-of-source and buffer-cap failure paths
the call instead returns the `EOF` sentinel, discarding the (possibly
positive) count of bytes already serialized — see
`read_pcm_partial_discard_counterexample`. -/
theorem read_pcm_nonneg_true_count (D : PushDecoder δ) (fuel : Nat) (st : VorbisState δ)
    (len : Nat) (n : Int) (st' : VorbisState δ) (out : List Nat)
    (h : read_vorbis_pcm D fuel st len = some (n, st', out)) (hn : 0 ≤ n) :
    n = (out.length : Int) := by
  rcases read_pcm_cases D fuel st len n st' out h with h1 | ⟨h1, _⟩
  · omega
  · exact h1

/-- The context after one 100-byte `read_pcm` call on `cexSt`: the whole
3-sample frame was decoded and delivered (6 bytes). -/
def cexSt4 : VorbisState Nat :=
  { core := { input := [], buffer := [], buffer_size := 4096, decoder := 1 },
    header_size := 4, expected_offset := 6, channels := 1,
    outputs := none, outputs_index := 0, outputs_size := 0 }

/-- C4 witness: a successful 100-byte call on `cexSt` returns 6, which is
exactly the length of the bytes it serialized. -/
theorem read_pcm_nonneg_true_count_witness :
    read_vorbis_pcm cexDec 8 cexSt 100 = some (6, cexSt4, [0, 0, 0, 0, 0, 0]) ∧
    (6 : Int) = (([0, 0, 0, 0, 0, 0] : List Nat).length : Int) :=
  ⟨by decide,
   read_pcm_nonneg_true_count cexDec 8 cexSt 100 6 cexSt4 [0, 0, 0, 0, 0, 0]
     (by decide) (by decide)⟩

/-- When the caller's buffer length is a whole number of frames, the output
already written is frame-aligned and within bounds, and enough pending
samples remain, the sample loop fills the buffer exactly: it writes
`(len - out.length) / (2c)` further frames and ends with exactly `len`
bytes in the buffer. -/
theorem write_go_fill (c : Nat) (smp : List (List ℚ)) (len : Nat) :
    ∀ (f s : Nat) (out : List Nat), 0 < c → (2 * c) ∣ (len - out.length) →
      out.length ≤ len → len - out.length ≤ f * (2 * c) →
      (write_samples_go c smp len f s out).1 = s + (len - out.length) / (2 * c) ∧
      (write_samples_go c smp len f s out).2.length = len
  | 0, s, out, hc, hdvd, hle, hf => by
    have h0 : out.length = len := by omega
    refine ⟨?_, by simpa [write_samples_go] using h0⟩
    simp [write_samples_go, h0]
  | f + 1, s, out, hc, hdvd, hle, hf => by
    obtain ⟨q, hq⟩ := hdvd
    have h2c : 0 < 2 * c := by omega
    unfold write_samples_go
    by_cases hlt : len < out.length + 2 * c
    · rw [if_pos hlt]
      have hq0 : q = 0 := by
        rcases Nat.eq_zero_or_pos q with h | h
        · exact h
        · have : 2 * c ≤ 2 * c * q := Nat.le_mul_of_pos_right _ h
          omega
      have h0 : out.length = len := by
        rw [hq0, Nat.mul_zero] at hq
        omega
      simp [h0]
    · rw [if_neg hlt]
      have hfr : (out ++ frame_pcm smp c s).length = out.length + 2 * c := by
        rw [List.length_append, frame_pcm_length]
      have hd2 : 2 * c ≤ len - out.length := by omega
      have hq1 : 1 ≤ q := by
        rcases Nat.eq_zero_or_pos q with h | h
        · rw [h, Nat.mul_zero] at hq; omega
        · exact h
      have hq' : len - (out ++ frame_pcm smp c s).length = 2 * c * (q - 1) := by
        rw [hfr]
        rcases q with _ | p
        · omega
        · simp only [Nat.mul_succ] at hq
          simp [Nat.mul_sub, Nat.mul_one]
          omega
      have hfbound : len - (out ++ frame_pcm smp c s).length ≤ f * (2 * c) := by
        have hexp : (f + 1) * (2 * c) = f * (2 * c) + 2 * c := by ring
        rw [hfr]
        omega
      have ih := write_go_fill c smp len f (s + 1) (out ++ frame_pcm smp c s) hc
        ⟨q - 1, hq'⟩ (by omega) hfbound
      rcases ih with ⟨ih1, ih2⟩
      refine ⟨?_, ih2⟩
      rw [ih1, hq', hq, Nat.mul_div_cancel_left _ h2c, Nat.mul_div_cancel_left _ h2c]
      omega

/-- C2: a `read_pcm` call on a Vorbis source with pending decoded samples
(`outputs_index < outputs_size`), whose buffer (a whole number of frames)
is filled entirely from those pending samples — whether strictly fewer
frames than remain pending or exactly all of them — returns the number of
bytes written immediately: the decoder is not invoked and the byte source
is not pulled (the returned context differs from the input only in the
pending-sample cursor and `expected_offset`; `core`, which holds the byte
source, compressed buffer, and decoder handle, is untouched).  When the
call consumes the pending samples exactly, the pending reference is
cleared; otherwise the cursor advances by `len / (2 * channels)` samples. -/
theorem read_pcm_pending_fastpath (D : PushDecoder δ) (fuel : Nat) (st : VorbisState δ)
    (len : Nat) (smp : List (List ℚ))
    (hout : st.outputs = some smp)
    (hc : 0 < st.channels)
    (hdvd : (2 * st.channels) ∣ len)
    (hpend : len ≤ (st.outputs_size - st.outputs_index) * (2 * st.channels)) :
    read_vorbis_pcm D fuel st len =
      some ((len : Int),
        (if st.outputs_size ≤ st.outputs_index + len / (2 * st.channels) then
          { st with outputs := none, outputs_index := 0, outputs_size := 0,
                    expected_offset := st.expected_offset + len }
        else
          { st with outputs_index := st.outputs_index + len / (2 * st.channels),
                    expected_offset := st.expected_offset + len }),
        (write_samples_go st.channels smp len (st.outputs_size - st.outputs_index)
          st.outputs_index []).2) ∧
    (write_samples_go st.channels smp len (st.outputs_size - st.outputs_index)
      st.outputs_index []).2.length = len := by
  have hw := write_go_fill st.channels smp len (st.outputs_size - st.outputs_index)
    st.outputs_index [] hc (by simpa using hdvd) (by simp) (by simpa using hpend)
  simp only [List.length_nil, Nat.sub_zero] at hw
  obtain ⟨hw1, hw2⟩ := hw
  refine ⟨?_, hw2⟩
  have hwv : write_vorbis_samples st [] len =
      ((if st.outputs_size ≤ st.outputs_index + len / (2 * st.channels) then
          { st with outputs := none, outputs_index := 0, outputs_size := 0 }
        else
          { st with outputs_index := st.outputs_index + len / (2 * st.channels) }),
        (write_samples_go st.channels smp len (st.outputs_size - st.outputs_index)
          st.outputs_index []).2) := by
    unfold write_vorbis_samples
    rw [hout]
    dsimp only
    rw [hw1]
  rw [read_vorbis_pcm]
  simp only [hwv]
  rw [hw2, if_pos (le_refl len)]
  split <;> rfl

/-- The spec's section-8 scenario state: a 2-channel context whose first
decode has just yielded 512 samples, none consumed yet. -/
def c2St : VorbisState Nat :=
  { core := { input := [], buffer := [], buffer_size := 4096, decoder := 0 },
    header_size := 0, expected_offset := 0, channels := 2,
    outputs := some [List.replicate 512 0, List.replicate 512 0],
    outputs_index := 0, outputs_size := 512 }

/-- A 2-channel context with exactly 3 pending samples: a 12-byte call
consumes them all. -/
def c2ExSt : VorbisState Nat :=
  { core := { input := [], buffer := [], buffer_size := 4096, decoder := 0 },
    header_size := 0, expected_offset := 0, channels := 2,
    outputs := some [[0, 0, 0], [0, 0, 0]],
    outputs_index := 0, outputs_size := 3 }

/-- C2 witness: on the 512-pending-sample, 2-channel state, a 12-byte call
(3 frames) returns 12, consumes 3 samples leaving 509 pending, and neither
the decoder nor the byte source is touched; and on a state with exactly 3
pending samples, the same 12-byte call is also served entirely from the
pending samples — it returns 12 and clears the pending reference, again
without touching the decoder or the byte source. -/
theorem read_pcm_pending_fastpath_witness :
    (read_vorbis_pcm stallDec 3 c2St 12 =
      some ((12 : Int), { c2St with outputs_index := 3, expected_offset := 12 },
        (write_samples_go 2 [List.replicate 512 0, List.replicate 512 0] 12 512 0 []).2) ∧
    (write_samples_go 2 [List.replicate 512 0, List.replicate 512 0] 12 512 0 []).2.length = 12 ∧
    c2St.outputs_size - 3 = 509) ∧
    (read_vorbis_pcm stallDec 3 c2ExSt 12 =
      some ((12 : Int),
        { c2ExSt with outputs := none, outputs_index := 0, outputs_size := 0,
                      expected_offset := 12 },
        (write_samples_go 2 [[0, 0, 0], [0, 0, 0]] 12 3 0 []).2) ∧
    (write_samples_go 2 [[0, 0, 0], [0, 0, 0]] 12 3 0 []).2.length = 12) :=
  have h := read_pcm_pending_fastpath stallDec 3 c2St 12
    [List.replicate 512 0, List.replicate 512 0] rfl (by decide) (by decide)
    (by decide)
  have hex := read_pcm_pending_fastpath stallDec 3 c2ExSt 12
    [[0, 0, 0], [0, 0, 0]] rfl (by decide) (by decide) (by decide)
  ⟨⟨by rw [h.1]; rfl, h.2, by decide⟩, ⟨by rw [hex.1]; rfl, hex.2⟩⟩

/-- The compressed-buffer invariant of a streaming decode context: the
write cursor never passes the capacity, the capacity is always an exact
power-of-two multiple of the 4096-byte minimum reached by doubling at most
6 times, and hence never exceeds 262144 bytes (one doubling past the
176400-byte cap, which is as far as the code's check-before-double guard
allows). -/
def BufInv (c : VorbisCore δ) : Prop :=
  c.buffer_offset ≤ c.buffer_size ∧
  (∃ k, k ≤ 6 ∧ c.buffer_size = MIN_BUFSIZE * 2 ^ k) ∧
  c.buffer_size ≤ 262144

/-- Six doublings from `MIN_BUFSIZE` stay at or below 262144 bytes. -/
theorem size_le_of_pow {k : Nat} (h : k ≤ 6) : MIN_BUFSIZE * 2 ^ k ≤ 262144 := by
  have h2 : (2 : Nat) ^ k ≤ 2 ^ 6 := Nat.pow_le_pow_right (by norm_num) h
  calc MIN_BUFSIZE * 2 ^ k ≤ MIN_BUFSIZE * 2 ^ 6 := Nat.mul_le_mul_left _ h2
    _ = 262144 := by norm_num [MIN_BUFSIZE]

/-- A buffer size that is still below `MAX_BUFSIZE` has been doubled at
most 5 times. -/
theorem pow_le_five {k bufsize : Nat} (hk : bufsize = MIN_BUFSIZE * 2 ^ k)
    (hlt : bufsize < MAX_BUFSIZE) : k ≤ 5 := by
  by_contra h
  push_neg at h
  have h6 : (2 : Nat) ^ 6 ≤ 2 ^ k := Nat.pow_le_pow_right (by norm_num) h
  have hge : 262144 ≤ bufsize := by
    rw [hk]
    calc (262144 : Nat) = MIN_BUFSIZE * 2 ^ 6 := by norm_num [MIN_BUFSIZE]
      _ ≤ MIN_BUFSIZE * 2 ^ k := Nat.mul_le_mul_left _ h6
  simp [MAX_BUFSIZE] at hlt
  omega

/-- The open loop establishes the buffer invariant on every successfully
opened context. -/
theorem open_go_inv (D : PushDecoder δ) :
    ∀ (fuel : Nat) (buf : List Nat) (bufsize : Nat) (src : List Nat) (live : Nat)
      (st : VorbisState δ) (liveO : Nat),
      buf.length ≤ bufsize → (∃ k, k ≤ 6 ∧ bufsize = MIN_BUFSIZE * 2 ^ k) →
      open_go D fuel buf bufsize src live = .ok st liveO → BufInv st.core
  | 0, _, _, _, _, _, _, _, _, h => by simp [open_go] at h
  | fuel + 1, buf, bufsize, src, live, st, liveO, hle, ⟨k, hk6, hk⟩, h => by
    rw [open_go] at h
    split at h
    · next dec consumed heq =>
      simp only [OpenOut.ok.injEq] at h
      obtain ⟨hst, _⟩ := h
      refine ⟨?_, ⟨k, hk6, ?_⟩, ?_⟩
      · rw [← hst]
        simp only [VorbisCore.buffer_offset, List.length_drop]
        omega
      · rw [← hst]; exact hk
      · rw [← hst]; exact hk ▸ size_le_of_pow hk6
    · simp at h
    · split at h
      · simp at h
      · next hcap =>
        rw [if_neg (by simp)] at h
        have hlt : bufsize < MAX_BUFSIZE := Nat.not_le.mp hcap
        have hk5 : k ≤ 5 := pow_le_five hk hlt
        refine open_go_inv D fuel _ (bufsize * 2) _ live st liveO ?_ ?_ h
        · rw [List.length_append]
          have : (List.take (min bufsize src.length) src).length ≤ bufsize := by
            simp [List.length_take]
          omega
        · exact ⟨k + 1, by omega, by rw [hk]; ring⟩

/-- The decode loop of `read_vorbis_pcm` preserves the buffer invariant:
shifting consumed bytes only shrinks the valid region, and doubling is
guarded by the cap check. -/
theorem decode_loop_inv (D : PushDecoder δ) :
    ∀ (fuel read0 : Nat) (core : VorbisCore δ) (e : LoopEnd δ) (core' : VorbisCore δ),
      decode_loop D fuel read0 core = some (e, core') → BufInv core → BufInv core'
  | 0, _, _, _, _, h, _ => by simp [decode_loop] at h
  | fuel + 1, read0, core, e, core', h, hinv => by
    obtain ⟨hoff, ⟨k, hk6, hk⟩, hle⟩ := hinv
    simp only [VorbisCore.buffer_offset] at hoff
    rw [decode_loop] at h
    simp only at h
    split at h
    · split at h
      · simp only [Option.some.injEq, Prod.mk.injEq] at h
        obtain ⟨_, hc⟩ := h
        refine ⟨?_, ⟨k, hk6, ?_⟩, ?_⟩ <;> rw [← hc] <;>
          first
          | exact hoff
          | exact hk
          | exact hle
      · split at h
        · simp only [Option.some.injEq, Prod.mk.injEq] at h
          obtain ⟨_, hc⟩ := h
          refine ⟨?_, ⟨k, hk6, ?_⟩, ?_⟩ <;> rw [← hc] <;>
            first
            | exact hoff
            | exact hk
            | exact hle
        · next hcap =>
          have hlt : core.buffer_size < MAX_BUFSIZE := Nat.not_le.mp hcap
          have hk5 : k ≤ 5 := pow_le_five hk hlt
          have hpow : core.buffer_size * 2 = MIN_BUFSIZE * 2 ^ (k + 1) := by
            rw [hk]; ring
          refine decode_loop_inv D fuel read0 _ e core' h
            ⟨?_, ⟨k + 1, by omega, hpow⟩, ?_⟩
          · simp only [VorbisCore.buffer_offset, List.length_append, List.length_take]
            omega
          · rw [hpow]; exact size_le_of_pow (by omega)
    · split at h
      · exact decode_loop_inv D fuel read0 _ e core' h
          ⟨by simp only [VorbisCore.buffer_offset, List.length_drop]; omega,
           ⟨k, hk6, hk⟩, hle⟩
      · simp only [Option.some.injEq, Prod.mk.injEq] at h
        obtain ⟨_, hc⟩ := h
        refine ⟨?_, ⟨k, hk6, ?_⟩, ?_⟩ <;> rw [← hc] <;>
          first
          | (simp only [VorbisCore.buffer_offset, List.length_drop]; omega)
          | exact hk
          | exact hle

/-- Pulling from the source into the remaining room and then decoding
preserves the buffer invariant. -/
theorem fill_and_decode_inv (D : PushDecoder δ) (fuel : Nat) (core : VorbisCore δ)
    (e : LoopEnd δ) (core' : VorbisCore δ)
    (h : vorbis_fill_and_decode D fuel core = some (e, core'))
    (hinv : BufInv core) : BufInv core' := by
  obtain ⟨hoff, hpow, hle⟩ := hinv
  simp only [VorbisCore.buffer_offset] at hoff
  rw [vorbis_fill_and_decode] at h
  refine decode_loop_inv D fuel _ _ e core' h ⟨?_, hpow, hle⟩
  simp only [VorbisCore.buffer_offset, List.length_append, List.length_take]
  omega

/-- A completed `read_vorbis_pcm` call preserves the buffer invariant of
the context. -/
theorem read_pcm_core_inv (D : PushDecoder δ) (fuel : Nat) (st : VorbisState δ)
    (len : Nat) (n : Int) (st' : VorbisState δ) (out : List Nat)
    (h : read_vorbis_pcm D fuel st len = some (n, st', out))
    (hinv : BufInv st.core) : BufInv st'.core := by
  have hcore1 : (write_vorbis_samples st [] len).1.core = st.core :=
    write_vorbis_samples_core st [] len
  rw [read_vorbis_pcm] at h
  simp only at h
  split at h
  · simp only [Option.some.injEq, Prod.mk.injEq] at h
    obtain ⟨_, hst, _⟩ := h
    rw [← hst]
    simpa [hcore1] using hinv
  · split at h
    · simp at h
    · next core3 heq =>
      simp only [Option.some.injEq, Prod.mk.injEq] at h
      obtain ⟨_, hst, _⟩ := h
      rw [← hst]
      exact fill_and_decode_inv D fuel _ _ core3 (by rw [hcore1] at heq; exact heq) hinv
    · next core3 heq =>
      simp only [Option.some.injEq, Prod.mk.injEq] at h
      obtain ⟨_, hst, _⟩ := h
      rw [← hst]
      exact fill_and_decode_inv D fuel _ _ core3 (by rw [hcore1] at heq; exact heq) hinv
    · next samples count core3 heq =>
      have hinv3 : BufInv core3 :=
        fill_and_decode_inv D fuel _ _ core3 (by rw [hcore1] at heq; exact heq) hinv
      split at h <;>
      · simp only [Option.some.injEq, Prod.mk.injEq] at h
        obtain ⟨_, hst, _⟩ := h
        rw [← hst]
        simpa [write_vorbis_samples_core] using hinv3

/-- `open_vorbis_decoder` establishes the buffer invariant. -/
theorem open_vorbis_decoder_inv (D : PushDecoder δ) (fuel : Nat) (src : List Nat)
    (st : VorbisState δ) (live : Nat)
    (h : open_vorbis_decoder D fuel src = .ok st live) : BufInv st.core := by
  rw [open_vorbis_decoder] at h
  refine open_go_inv D fuel _ MIN_BUFSIZE _ 1 st live ?_ ⟨0, by omega, by norm_num⟩ h
  simp [List.length_take]

/-- C3, amended: for every reachable state of a streaming decode context
(established at open and preserved by every completed `read_pcm` call),
`buffer_offset <= buffer_size` holds and `buffer_size` is an exact repeated
doubling of 4096 (`4096 * 2^k`, `k <= 6`) — but the hard cap is one
doubling looser than claimed: growth is refused with an IO error only once
`buffer_size >= 176400`, so `buffer_size` can reach 262144 (see
`buffer_cap_counterexample`) and the provable bound is
`buffer_size <= 262144`. -/
theorem buffer_growth_invariant_amended (D : PushDecoder δ) :
    (∀ (fuel : Nat) (src : List Nat) (st : VorbisState δ) (live : Nat),
        open_vorbis_decoder D fuel src = .ok st live → BufInv st.core) ∧
    (∀ (fuel : Nat) (st : VorbisState δ) (len : Nat) (n : Int) (st' : VorbisState δ)
        (out : List Nat), BufInv st.core →
        read_vorbis_pcm D fuel st len = some (n, st', out) → BufInv st'.core) :=
  ⟨fun fuel src st live h => open_vorbis_decoder_inv D fuel src st live h,
   fun fuel st len n st' out hinv h => read_pcm_core_inv D fuel st len n st' out h hinv⟩

/-- C3 witness: the invariant holds for the opened context `cexSt` and is
preserved by the 4-byte read that produces `cexSt2`. -/
theorem buffer_growth_invariant_amended_witness :
    BufInv cexSt.core ∧ BufInv cexSt2.core :=
  have h1 := (buffer_growth_invariant_amended cexDec).1 8 (List.replicate 8 0) cexSt 1 (by decide)
  have h2 := (buffer_growth_invariant_amended cexDec).2 8 cexSt 4 4 cexSt2 [0, 0, 0, 0] h1 (by decide)
  ⟨h1, h2⟩

/-- With room for all remaining frames, the sample loop writes every one of
them in order. -/
theorem write_go_all (c : Nat) (smp : List (List ℚ)) (len : Nat) :
    ∀ (f s : Nat) (out : List Nat), out.length + f * (2 * c) ≤ len →
      write_samples_go c smp len f s out =
        (s + f, out ++ ((List.range' s f).map (frame_pcm smp c)).flatten)
  | 0, s, out, _ => by simp [write_samples_go]
  | f + 1, s, out, h => by
    have hexp : (f + 1) * (2 * c) = f * (2 * c) + 2 * c := by ring
    rw [write_samples_go, if_neg (by omega)]
    have ih := write_go_all c smp len f (s + 1) (out ++ frame_pcm smp c s)
      (by rw [List.length_append, frame_pcm_length]; omega)
    rw [ih, List.range'_succ s f 1]
    simp [List.append_assoc]
    omega

/-- With a buffer of exactly one frame, the sample loop writes exactly one
frame. -/
theorem write_go_one (c : Nat) (smp : List (List ℚ)) (hc : 0 < c) :
    ∀ (f s : Nat), 1 ≤ f →
      write_samples_go c smp (2 * c) f s [] = (s + 1, frame_pcm smp c s)
  | 0, _, hf => by omega
  | f + 1, s, _ => by
    rw [write_samples_go, if_neg (by simp)]
    rcases f with _ | f'
    · simp [write_samples_go]
    · rw [write_samples_go, if_pos (by simp [frame_pcm_length]; omega)]
      simp

/-- With no pending samples, serialization writes nothing. -/
theorem write_vorbis_samples_none (st : VorbisState δ) (out : List Nat) (len : Nat)
    (hout : st.outputs = none) : write_vorbis_samples st out len = (st, out) := by
  simp [write_vorbis_samples, hout]

/-- A fully serialized frame of `cnt` samples occupies `cnt * 2 * channels`
bytes. -/
theorem full_frame_pcm_length (smp : List (List ℚ)) (c cnt : Nat) :
    (full_frame_pcm smp c cnt).length = cnt * (2 * c) := by
  simp only [full_frame_pcm, List.length_flatten, List.map_map]
  induction cnt with
  | zero => simp
  | succ n ih =>
    rw [List.range_succ]
    simp [ih, Function.comp, frame_pcm_length]
    ring

/-- Once the canonical decoded stream is fully produced within some frame
budget, a larger budget produces the same stream. -/
theorem all_decoded_pcm_mono (D : PushDecoder δ) (cf c : Nat) :
    ∀ (m m' : Nat) (core : VorbisCore δ) (v : List Nat), m ≤ m' →
      all_decoded_pcm D cf c m core = some v →
      all_decoded_pcm D cf c m' core = some v
  | 0, _, _, _, _, h => by simp [all_decoded_pcm] at h
  | m + 1, m' + 1, core, v, hle, h => by
    rw [all_decoded_pcm] at h ⊢
    split at h <;> rename_i heq <;> rw [heq] at *
    · exact h
    · exact h
    · exact h
    · rcases ho : all_decoded_pcm D cf c m _ with _ | t
      · rw [ho] at h; simp at h
      · rw [ho] at h
        rw [all_decoded_pcm_mono D cf c m m' _ t (by omega) ho]
        exact h

/-- A frame produced by the decode loop comes from one `decode_frame` call,
so its sample count is positive and within any uniform bound on the
decoder. -/
theorem decode_loop_frame_count (D : PushDecoder δ) (B : Nat)
    (hbound : ∀ d data size, (D.decode_frame d data size).count ≤ B) :
    ∀ (fuel read0 : Nat) (core : VorbisCore δ) (smp : List (List ℚ)) (cnt : Nat)
      (core' : VorbisCore δ),
      decode_loop D fuel read0 core = some (.frame smp cnt, core') →
      0 < cnt ∧ cnt ≤ B
  | 0, _, _, _, _, _, h => by simp [decode_loop] at h
  | fuel + 1, read0, core, smp, cnt, core', h => by
    rw [decode_loop] at h
    split at h
    · split at h
      · simp at h
      · split at h
        · simp at h
        · exact decode_loop_frame_count D B hbound fuel read0 _ smp cnt core' h
    · split at h
      · exact decode_loop_frame_count D B hbound fuel read0 _ smp cnt core' h
      · next hcnt =>
        simp only [Option.some.injEq, Prod.mk.injEq, LoopEnd.frame.injEq] at h
        obtain ⟨⟨hs, hcn⟩, _⟩ := h
        refine ⟨by omega, ?_⟩
        rw [← hcn]
        exact hbound _ _ _

/-- Shape of a `read_pcm` call with no pending samples whose decode loop
ends at end-of-data or at the buffer cap: it returns `EOF` with no bytes. -/
theorem read_call_end (D : PushDecoder δ) (cf : Nat) (st : VorbisState δ) (len : Nat)
    (hout : st.outputs = none) (hlen : 0 < len) (e : LoopEnd δ) (core3 : VorbisCore δ)
    (he : vorbis_fill_and_decode D cf st.core = some (e, core3))
    (hend : e = .eofData ∨ e = .eofCap) :
    read_vorbis_pcm D cf st len = some (-1, { st with core := core3 }, []) := by
  rw [read_vorbis_pcm, write_vorbis_samples_none st [] len hout]
  simp only [List.length_nil]
  rw [if_neg (by omega), he]
  rcases hend with h | h <;> subst h <;> rfl

/-- A call with no pending samples whose decode loop runs out of model fuel
is itself out of fuel. -/
theorem read_call_out_of_fuel (D : PushDecoder δ) (cf : Nat) (st : VorbisState δ) (len : Nat)
    (hout : st.outputs = none) (hlen : 0 < len)
    (he : vorbis_fill_and_decode D cf st.core = none) :
    read_vorbis_pcm D cf st len = none := by
  rw [read_vorbis_pcm, write_vorbis_samples_none st [] len hout]
  simp only [List.length_nil]
  rw [if_neg (by omega), he]

/-- The context right after the decode loop returns a frame: new pending
samples installed, cursor reset (`outputs_index = 0`,
`outputs_size = count`). -/
def frame_start_state (st : VorbisState δ) (smp : List (List ℚ)) (cnt : Nat)
    (core3 : VorbisCore δ) : VorbisState δ :=
  { st with core := core3, outputs := some smp, outputs_index := 0, outputs_size := cnt }

/-- The tail of `read_vorbis_pcm` after its decode loop produced a frame:
install the pending samples, serialize, and return the byte count (or `EOF`
if nothing fit). -/
def frame_call_result (st : VorbisState δ) (smp : List (List ℚ)) (cnt : Nat)
    (core3 : VorbisCore δ) (len : Nat) : Option (Int × VorbisState δ × List Nat) :=
  let st4 : VorbisState δ := frame_start_state st smp cnt core3
  let ws2 := write_vorbis_samples st4 [] len
  if 0 < ws2.2.length then
    some ((ws2.2.length : Int),
      { ws2.1 with expected_offset := ws2.1.expected_offset + ws2.2.length }, ws2.2)
  else
    some (-1, ws2.1, ws2.2)

/-- Shape of a `read_pcm` call with no pending samples whose decode loop
produces a frame. -/
theorem read_call_frame (D : PushDecoder δ) (cf : Nat) (st : VorbisState δ) (len : Nat)
    (hout : st.outputs = none) (hlen : 0 < len)
    (smp : List (List ℚ)) (cnt : Nat) (core3 : VorbisCore δ)
    (he : vorbis_fill_and_decode D cf st.core = some (.frame smp cnt, core3)) :
    read_vorbis_pcm D cf st len = frame_call_result st smp cnt core3 len := by
  rw [read_vorbis_pcm, write_vorbis_samples_none st [] len hout]
  simp only [List.length_nil]
  rw [if_neg (by omega), he]
  rfl

/-- The context after serializing exactly one pending frame: the cursor
advances by one and the pending reference is cleared when exhausted. -/
def pending_write_state (st : VorbisState δ) : VorbisState δ :=
  let st1 := { st with outputs_index := st.outputs_index + 1 }
  if st1.outputs_size ≤ st1.outputs_index then
    { st1 with outputs := none, outputs_size := 0, outputs_index := 0 }
  else st1

/-- The context returned by a one-frame `read_pcm` call served from pending
samples: cursor advanced, `expected_offset` bumped by one frame. -/
def pending_call_state (st : VorbisState δ) (c : Nat) : VorbisState δ :=
  { pending_write_state st with
    expected_offset := (pending_write_state st).expected_offset + 2 * c }

/-- With a one-frame buffer and pending samples available, serialization
writes exactly the frame at the cursor. -/
theorem write_pending_one (st : VorbisState δ) (smp : List (List ℚ)) (len : Nat)
    (hlen : len = 2 * st.channels)
    (hc : 0 < st.channels) (hout : st.outputs = some smp)
    (hidx : st.outputs_index < st.outputs_size) :
    write_vorbis_samples st [] len =
      (pending_write_state st, frame_pcm smp st.channels st.outputs_index) := by
  subst hlen
  unfold write_vorbis_samples pending_write_state
  rw [hout]
  dsimp only
  rw [write_go_one st.channels smp hc _ _ (by omega)]

/-- Shape of a one-frame `read_pcm` call on a context with pending samples:
it returns that frame's bytes immediately. -/
theorem read_call_pending (D : PushDecoder δ) (cf : Nat) (st : VorbisState δ)
    (smp : List (List ℚ)) (hc : 0 < st.channels) (hout : st.outputs = some smp)
    (hidx : st.outputs_index < st.outputs_size) :
    read_vorbis_pcm D cf st (2 * st.channels) =
      some (((2 * st.channels : Nat) : Int), pending_call_state st st.channels,
        frame_pcm smp st.channels st.outputs_index) := by
  rw [read_vorbis_pcm, write_pending_one st smp (2 * st.channels) rfl hc hout hidx]
  simp only [frame_pcm_length, le_refl, if_pos]
  simp [pending_call_state, frame_pcm_length]

/-- The context returned by a large-buffer `read_pcm` call that decoded and
fully delivered one frame: pending reference cleared. -/
def big_call_state (st : VorbisState δ) (core3 : VorbisCore δ) (k : Nat) : VorbisState δ :=
  { st with
    core := core3
    outputs := none
    outputs_index := 0
    outputs_size := 0
    expected_offset := st.expected_offset + k }

/-- With a buffer large enough for the whole frame, the post-decode tail of
`read_vorbis_pcm` delivers the frame completely and clears the pending
reference. -/
theorem frame_call_result_all (st : VorbisState δ) (smp : List (List ℚ)) (cnt : Nat)
    (core3 : VorbisCore δ) (L : Nat)
    (hc : 0 < st.channels) (hcnt : 0 < cnt)
    (hfit : cnt * (2 * st.channels) ≤ L) :
    frame_call_result st smp cnt core3 L =
      some (((full_frame_pcm smp st.channels cnt).length : Int),
        big_call_state st core3 (full_frame_pcm smp st.channels cnt).length,
        full_frame_pcm smp st.channels cnt) := by
  unfold frame_call_result frame_start_state write_vorbis_samples
  dsimp only
  rw [Nat.sub_zero, write_go_all st.channels smp L cnt 0 [] (by simpa using hfit)]
  dsimp only
  rw [if_pos (show cnt ≤ 0 + cnt by omega)]
  have hffl : full_frame_pcm smp st.channels cnt =
      ((List.range' 0 cnt).map (frame_pcm smp st.channels)).flatten := by
    rw [full_frame_pcm, List.range_eq_range']
  have hpos : 0 < (([] : List Nat) ++
      ((List.range' 0 cnt).map (frame_pcm smp st.channels)).flatten).length := by
    rw [List.nil_append, ← hffl, full_frame_pcm_length]
    positivity
  rw [if_pos hpos]
  simp [big_call_state, hffl]

/-- Wrapper of `decode_loop_frame_count` over the pull-then-decode phase. -/
theorem fill_frame_count (D : PushDecoder δ) (B : Nat)
    (hbound : ∀ d data size, (D.decode_frame d data size).count ≤ B)
    (cf : Nat) (core : VorbisCore δ) (smp : List (List ℚ)) (cnt : Nat)
    (core' : VorbisCore δ)
    (h : vorbis_fill_and_decode D cf core = some (.frame smp cnt, core')) :
    0 < cnt ∧ cnt ≤ B := by
  rw [vorbis_fill_and_decode] at h
  exact decode_loop_frame_count D B hbound cf _ _ smp cnt core' h

/-- Large-buffer refinement: draining with any per-call buffer of at least
`2 * channels * B` bytes (`B` a uniform bound on the decoder's per-frame
sample count) delivers exactly the canonical decoded stream
`all_decoded_pcm`. -/
theorem drain_big_eq_canonical (D : PushDecoder δ) (cf B L c : Nat)
    (hc : 0 < c) (hB : 1 ≤ B)
    (hbound : ∀ d data size, (D.decode_frame d data size).count ≤ B)
    (hL : 2 * c * B ≤ L) :
    ∀ (m : Nat) (st : VorbisState δ) (v : List Nat),
      st.channels = c → st.outputs = none →
      drain_pcm D cf (List.replicate m L) st = some v →
      all_decoded_pcm D cf c m st.core = some v
  | 0, st, v, _, _, h => by simp [drain_pcm] at h
  | m + 1, st, v, hch, hout, h => by
    have hL0 : 0 < L := by
      have h1 : 2 * c ≤ 2 * c * B := Nat.le_mul_of_pos_right _ hB
      omega
    rw [List.replicate_succ, drain_pcm] at h
    rcases hr : vorbis_fill_and_decode D cf st.core with _ | ⟨e, core3⟩
    · rw [read_call_out_of_fuel D cf st L hout hL0 hr] at h
      simp at h
    · rcases e with _ | _ | ⟨smp, cnt⟩
      · rw [read_call_end D cf st L hout hL0 _ core3 hr (Or.inl rfl)] at h
        simp only [Int.reduceNeg] at h
        rw [if_pos (by omega : (-1 : Int) < 0)] at h
        rw [all_decoded_pcm, hr]
        exact h
      · rw [read_call_end D cf st L hout hL0 _ core3 hr (Or.inr rfl)] at h
        simp only [Int.reduceNeg] at h
        rw [if_pos (by omega : (-1 : Int) < 0)] at h
        rw [all_decoded_pcm, hr]
        exact h
      · obtain ⟨hcnt0, hcntB⟩ := fill_frame_count D B hbound cf st.core smp cnt core3 hr
        have hfit : cnt * (2 * st.channels) ≤ L := by
          rw [hch]
          calc cnt * (2 * c) ≤ B * (2 * c) := Nat.mul_le_mul_right _ hcntB
            _ = 2 * c * B := by ring
            _ ≤ L := hL
        rw [read_call_frame D cf st L hout hL0 smp cnt core3 hr,
          frame_call_result_all st smp cnt core3 L (by omega) hcnt0 hfit] at h
        dsimp only at h
        rw [if_neg (by omega)] at h
        rcases hd : drain_pcm D cf (List.replicate m L)
            (big_call_state st core3 (full_frame_pcm smp st.channels cnt).length)
            with _ | v'
        · rw [hd] at h
          simp at h
        · rw [hd] at h
          simp only [Option.map_some', Option.some.injEq] at h
          have ih := drain_big_eq_canonical D cf B L c hc hB hbound hL m
            (big_call_state st core3 (full_frame_pcm smp st.channels cnt).length) v'
            (by simp [big_call_state, hch]) (by simp [big_call_state]) hd
          rw [all_decoded_pcm, hr]
          dsimp only
          have hcore : (big_call_state st core3
              (full_frame_pcm smp st.channels cnt).length).core = core3 := rfl
          rw [hcore] at ih
          rw [ih]
          simp only [Option.map_some', Option.some.injEq]
          rw [← h, hch]

/-- Well-formedness of the pending-samples cursor: whenever a pending
reference is installed, it has not been fully consumed (the C code clears
it the moment it is). -/
def PendWF (st : VorbisState δ) : Prop :=
  ∀ smp, st.outputs = some smp → st.outputs_index < st.outputs_size

/-- With a one-frame buffer, the post-decode tail of `read_vorbis_pcm`
delivers exactly the frame's first sample frame and leaves the rest
pending. -/
theorem frame_call_result_one (st : VorbisState δ) (smp : List (List ℚ)) (cnt : Nat)
    (core3 : VorbisCore δ) (hc : 0 < st.channels) (hcnt : 0 < cnt) :
    frame_call_result st smp cnt core3 (2 * st.channels) =
      some (((2 * st.channels : Nat) : Int),
        pending_call_state (frame_start_state st smp cnt core3) st.channels,
        frame_pcm smp st.channels 0) := by
  unfold frame_call_result
  dsimp only
  rw [write_pending_one (frame_start_state st smp cnt core3) smp (2 * st.channels) rfl hc rfl hcnt]
  rw [if_pos (by simp [frame_pcm_length, frame_start_state]; omega)]
  simp [pending_call_state, pending_write_state, frame_start_state, frame_pcm_length]

/-- The decode loop only exits with a frame whose sample count is
positive. -/
theorem decode_loop_frame_pos (D : PushDecoder δ) :
    ∀ (fuel read0 : Nat) (core : VorbisCore δ) (smp : List (List ℚ)) (cnt : Nat)
      (core' : VorbisCore δ),
      decode_loop D fuel read0 core = some (.frame smp cnt, core') → 0 < cnt
  | 0, _, _, _, _, _, h => by simp [decode_loop] at h
  | fuel + 1, read0, core, smp, cnt, core', h => by
    rw [decode_loop] at h
    split at h
    · split at h
      · simp at h
      · split at h
        · simp at h
        · exact decode_loop_frame_pos D fuel read0 _ smp cnt core' h
    · split at h
      · exact decode_loop_frame_pos D fuel read0 _ smp cnt core' h
      · simp only [Option.some.injEq, Prod.mk.injEq, LoopEnd.frame.injEq] at h
        obtain ⟨⟨_, hcn⟩, _⟩ := h
        omega

/-- Wrapper of `decode_loop_frame_pos` over the pull-then-decode phase. -/
theorem fill_frame_pos (D : PushDecoder δ) (cf : Nat) (core : VorbisCore δ)
    (smp : List (List ℚ)) (cnt : Nat) (core' : VorbisCore δ)
    (h : vorbis_fill_and_decode D cf core = some (.frame smp cnt, core')) : 0 < cnt := by
  rw [vorbis_fill_and_decode] at h
  exact decode_loop_frame_pos D cf _ _ smp cnt core' h

/-- No pending samples, no owed bytes. -/
theorem pending_pcm_none (st : VorbisState δ) (h : st.outputs = none) :
    pending_pcm st = [] := by
  simp [pending_pcm, h]

/-- The owed bytes of a context with pending samples, spelled out. -/
theorem pending_pcm_some (st : VorbisState δ) (smp : List (List ℚ))
    (h : st.outputs = some smp) :
    pending_pcm st =
      ((List.range' st.outputs_index (st.outputs_size - st.outputs_index)).map
        (frame_pcm smp st.channels)).flatten := by
  simp [pending_pcm, h]

/-- A non-empty index range splits off its first index. -/
theorem range'_cons (i k : Nat) (h : 0 < k) :
    List.range' i k = i :: List.range' (i + 1) (k - 1) := by
  rcases k with _ | k'
  · omega
  · simpa using List.range'_succ i k' 1

/-- A full frame's bytes split into the first sample frame and the rest. -/
theorem full_frame_decomp (smp : List (List ℚ)) (c cnt : Nat) (h : 0 < cnt) :
    full_frame_pcm smp c cnt =
      frame_pcm smp c 0 ++ ((List.range' 1 (cnt - 1)).map (frame_pcm smp c)).flatten := by
  rw [full_frame_pcm, List.range_eq_range', range'_cons 0 cnt h]
  simp

/-- A one-frame pending call never changes the channel count. -/
theorem pending_call_state_channels (st : VorbisState δ) (k : Nat) :
    (pending_call_state st k).channels = st.channels := by
  unfold pending_call_state pending_write_state
  dsimp only
  split <;> rfl

/-- A one-frame pending call never touches the byte source, the compressed
buffer, or the decoder. -/
theorem pending_call_state_core (st : VorbisState δ) (k : Nat) :
    (pending_call_state st k).core = st.core := by
  unfold pending_call_state pending_write_state
  dsimp only
  split <;> rfl

/-- A one-frame pending call preserves cursor well-formedness. -/
theorem pending_call_state_wf (st : VorbisState δ) (k : Nat) :
    PendWF (pending_call_state st k) := by
  intro smp' he
  by_cases hcl : st.outputs_size ≤ st.outputs_index + 1
  · simp [pending_call_state, pending_write_state, hcl] at he
  · simp [pending_call_state, pending_write_state, hcl] at he ⊢
    omega

/-- After a one-frame pending call, the owed bytes are the remaining
frames past the advanced cursor. -/
theorem pending_call_state_pending (st : VorbisState δ) (smp : List (List ℚ)) (k : Nat)
    (h : st.outputs = some smp) :
    pending_pcm (pending_call_state st k) =
      ((List.range' (st.outputs_index + 1) (st.outputs_size - (st.outputs_index + 1))).map
        (frame_pcm smp st.channels)).flatten := by
  by_cases hcl : st.outputs_size ≤ st.outputs_index + 1
  · rw [show st.outputs_size - (st.outputs_index + 1) = 0 by omega]
    simp [pending_call_state, pending_write_state, hcl, pending_pcm]
  · simp [pending_call_state, pending_write_state, hcl, pending_pcm, h]

/-- Frame-sized refinement: draining with per-call buffers of exactly one
frame (`2 * channels` bytes) delivers the owed pending bytes followed by
exactly the canonical decoded stream — no bytes are ever lost at
end-of-stream with this schedule, because every pending-serialization call
fills its buffer exactly. -/
theorem drain_frames_eq_canonical (D : PushDecoder δ) (cf : Nat) :
    ∀ (m : Nat) (st : VorbisState δ) (v : List Nat),
      0 < st.channels → PendWF st →
      drain_pcm D cf (List.replicate m (2 * st.channels)) st = some v →
      ∃ t, all_decoded_pcm D cf st.channels m st.core = some t ∧
        v = pending_pcm st ++ t
  | 0, st, v, _, _, h => by simp [drain_pcm] at h
  | m + 1, st, v, hc, hwf, h => by
    have hcL : 0 < 2 * st.channels := by omega
    rw [List.replicate_succ, drain_pcm] at h
    rcases ho : st.outputs with _ | smp
    · rcases hr : vorbis_fill_and_decode D cf st.core with _ | ⟨e, core3⟩
      · rw [read_call_out_of_fuel D cf st _ ho hcL hr] at h
        simp at h
      · rcases e with _ | _ | ⟨smp, cnt⟩
        · rw [read_call_end D cf st _ ho hcL _ core3 hr (Or.inl rfl)] at h
          simp only [Int.reduceNeg] at h
          rw [if_pos (by omega : (-1 : Int) < 0)] at h
          refine ⟨[], ?_, ?_⟩
          · rw [all_decoded_pcm, hr]
          · rw [pending_pcm_none st ho]
            simpa using h.symm
        · rw [read_call_end D cf st _ ho hcL _ core3 hr (Or.inr rfl)] at h
          simp only [Int.reduceNeg] at h
          rw [if_pos (by omega : (-1 : Int) < 0)] at h
          refine ⟨[], ?_, ?_⟩
          · rw [all_decoded_pcm, hr]
          · rw [pending_pcm_none st ho]
            simpa using h.symm
        · have hcnt0 : 0 < cnt := fill_frame_pos D cf st.core smp cnt core3 hr
          rw [read_call_frame D cf st _ ho hcL smp cnt core3 hr,
            frame_call_result_one st smp cnt core3 hc hcnt0] at h
          dsimp only at h
          rw [if_neg (by omega)] at h
          rcases hd : drain_pcm D cf (List.replicate m (2 * st.channels))
              (pending_call_state (frame_start_state st smp cnt core3) st.channels)
              with _ | v'
          · rw [hd] at h
            simp at h
          · have hch5 : (pending_call_state (frame_start_state st smp cnt core3)
                st.channels).channels = st.channels :=
              pending_call_state_channels _ _
            rw [hd] at h
            simp only [Option.map_some', Option.some.injEq] at h
            have ih := drain_frames_eq_canonical D cf m
              (pending_call_state (frame_start_state st smp cnt core3) st.channels) v'
              (by rw [hch5]; exact hc) (pending_call_state_wf _ _)
              (by rw [← hch5] at hd ⊢; exact hd)
            obtain ⟨t', ht', hv'⟩ := ih
            rw [hch5, pending_call_state_core] at ht'
            have hcore5 : (frame_start_state st smp cnt core3).core = core3 := rfl
            rw [hcore5] at ht'
            refine ⟨full_frame_pcm smp st.channels cnt ++ t', ?_, ?_⟩
            · rw [all_decoded_pcm, hr]
              dsimp only
              rw [ht']
              rfl
            · rw [pending_pcm_none st ho, List.nil_append, ← h, hv']
              have hp5 := pending_call_state_pending (frame_start_state st smp cnt core3)
                smp st.channels rfl
              have hfss : (frame_start_state st smp cnt core3).channels = st.channels := rfl
              rw [hfss] at hp5
              have hidx : (frame_start_state st smp cnt core3).outputs_index = 0 := rfl
              have hsize : (frame_start_state st smp cnt core3).outputs_size = cnt := rfl
              rw [hidx, hsize] at hp5
              rw [hp5, full_frame_decomp smp st.channels cnt hcnt0]
              simp
    · have hidx := hwf smp ho
      rw [read_call_pending D cf st smp hc ho hidx] at h
      dsimp only at h
      rw [if_neg (by omega)] at h
      rcases hd : drain_pcm D cf (List.replicate m (2 * st.channels))
          (pending_call_state st st.channels) with _ | v'
      · rw [hd] at h
        simp at h
      · have hch5 : (pending_call_state st st.channels).channels = st.channels :=
          pending_call_state_channels _ _
        rw [hd] at h
        simp only [Option.map_some', Option.some.injEq] at h
        have ih := drain_frames_eq_canonical D cf m
          (pending_call_state st st.channels) v'
          (by rw [hch5]; exact hc) (pending_call_state_wf _ _)
          (by rw [← hch5] at hd ⊢; exact hd)
        obtain ⟨t', ht', hv'⟩ := ih
        rw [hch5, pending_call_state_core] at ht'
        obtain ⟨t'', ht''⟩ : ∃ t'', all_decoded_pcm D cf st.channels (m + 1) st.core =
            some t'' ∧ t'' = t' :=
          ⟨t', all_decoded_pcm_mono D cf st.channels m (m + 1) st.core t' (by omega) ht', rfl⟩
        refine ⟨t', ht''.2 ▸ ht''.1, ?_⟩
        rw [← h, hv']
        have hp5 := pending_call_state_pending st smp st.channels ho
        rw [hp5, pending_pcm_some st smp ho]
        rw [range'_cons st.outputs_index (st.outputs_size - st.outputs_index) (by omega)]
        have : st.outputs_size - st.outputs_index - 1 =
            st.outputs_size - (st.outputs_index + 1) := by omega
        simp [this]

/-- C1, amended: for every stream that decodes successfully (both drains
end with the normal `EOF` return within their schedules), reading all PCM
via repeated large `read_pcm` calls (each buffer at least one maximal
frame, `2 * channels * B` bytes) and reading it via many one-frame-sized
calls (exercising the pending-sample continuation on every call) produce
the same concatenated byte sequence.  The original claim's equality for
arbitrary small-call schedules is refuted by
`read_pcm_schedule_counterexample`: a call that exhausts the pending
samples without filling its buffer and then hits end-of-source returns
`EOF` and its bytes are dropped, so other schedules can lose up to one
frame's tail. -/
theorem read_pcm_schedule_equiv_amended (D : PushDecoder δ) (cf B L m1 m2 : Nat)
    (st : VorbisState δ) (xs ys : List Nat)
    (hc : 0 < st.channels) (hB : 1 ≤ B)
    (hbound : ∀ (d : δ) (data : List Nat) (size : Nat),
      (D.decode_frame d data size).count ≤ B)
    (hL : 2 * st.channels * B ≤ L)
    (hout : st.outputs = none)
    (hbig : drain_pcm D cf (List.replicate m1 L) st = some xs)
    (hframes : drain_pcm D cf (List.replicate m2 (2 * st.channels)) st = some ys) :
    xs = ys := by
  have h1 : all_decoded_pcm D cf st.channels m1 st.core = some xs :=
    drain_big_eq_canonical D cf B L st.channels hc hB hbound hL m1 st xs rfl hout hbig
  obtain ⟨t, h2, h3⟩ := drain_frames_eq_canonical D cf m2 st ys hc
    (fun smp hsmp => by rw [hout] at hsmp; cases hsmp) hframes
  rw [pending_pcm_none st hout] at h3
  have h1' := all_decoded_pcm_mono D cf st.channels m1 (m1 + m2) st.core xs (by omega) h1
  have h2' := all_decoded_pcm_mono D cf st.channels m2 (m1 + m2) st.core t (by omega) h2
  rw [h1'] at h2'
  simp only [Option.some.injEq] at h2'
  simp only [List.nil_append] at h3
  rw [h3, h2']

/-- C1 witness: on the opened context `cexSt`, two 12-byte calls and five
2-byte calls deliver identical bytes. -/
theorem read_pcm_schedule_equiv_amended_witness :
    drain_pcm cexDec 8 (List.replicate 2 12) cexSt =
      drain_pcm cexDec 8 (List.replicate 5 2) cexSt := by
  have hb : drain_pcm cexDec 8 (List.replicate 2 12) cexSt =
      some [0, 0, 0, 0, 0, 0] := by decide
  have hf : drain_pcm cexDec 8 (List.replicate 5 2) cexSt =
      some [0, 0, 0, 0, 0, 0] := by decide
  have hx := read_pcm_schedule_equiv_amended cexDec 8 3 12 2 5 cexSt
    [0, 0, 0, 0, 0, 0] [0, 0, 0, 0, 0, 0] (by decide) (by decide)
    (fun d data size => by by_cases h : d = 0 <;> simp [cexDec, h])
    (by decide) (by decide) hb hf
  rw [hb, hf]
